import Mathlib

/-!
Shallow embedding of the `Base` model layer (src/Base.js) and proofs about
its specified behaviour.

The embedding mirrors, function by function, the code of `src/Base.js`:
`set` (the write pipeline), `createProperty` (accessor installation and
default seeding), `initProperties` / `initHasMany` / `initHasOne`,
`updateProperties`, `createHasMany` / `createHasOne`, `__init__`
(the instance constructor), `__preCreate__` (definition merge) and the
`sync` reconciler.

JavaScript objects are modelled as association lists with first-match
lookup; the prototype-layered `_data` store is modelled by consing frames;
`process.emit` is a global event log threaded through an explicit state;
`model.emit` local events are returned by each write.  Object identity of
freshly allocated arrays and collections is modelled by an allocation
counter.  External collaborators that are not part of src/ are modelled
from the spec where used: `enforce` / `typeOf` (super-is, spec section 4.1),
`Collection.init` / `add` (spec section 6), and the uuid generator
(spec section 6, modelled as a counter of distinct fresh strings).

Recursive instantiation of child models is made executable by a fuel
parameter (structural `Nat.rec`, so every run reduces definitionally);
`Err.outOfFuel` is an artefact of the embedding that never occurs at
adequate fuel, and theorems either use concrete adequate fuel or exclude
it by hypothesis.
-/

namespace BaseModel

/-- Runtime values of the modelled JavaScript fragment.  `arrV` and `collV`
carry an allocation address modelling JS object identity; `obj` is a plain
raw-data record; `inst` is a reference to a constructed model instance
(its definition tag and its id). -/
inductive Value where
  | undefV
  | str (s : String)
  | num (n : Int)
  | boolV (b : Bool)
  | arrV (addr : Nat) (elems : List Value)
  | collV (addr : Nat) (cid : String)
  | obj (fields : List (String × Value))
  | inst (tag : Nat) (id : String)

/-- Pure value transforms standing for declared `set` functions.
`idSet` is `func.identity`, the default installed by `createProperty`;
`mapSet` stands for a user supplied pure transform.  (Side-effecting user
setters, like the built-in `edit` one, are outside the claims' scope.) -/
inductive SetterKind where
  | idSet
  | mapSet (f : Value → Value)

mutual

/-- A declared type: a primitive tag, the Collection prototype, or a model
definition (`typeOf`'s nested-model membership check). -/
inductive Ty where
  | stringTy
  | numberTy
  | booleanTy
  | arrayTy
  | collectionTy
  | modelTy (d : Definition)

/-- A property declaration `{type?, defaultValue?, sync?, enumerable?, set?}`
as consumed by `createProperty`.  (`get` transforms and `on` observers are
subscriptions on the local event bus; local events are the observable
boundary here, so they carry no data of their own.) -/
inductive PropDecl where
  | mk (type : Option Ty) (defaultValue : Option Value) (sync : Bool)
       (enumerable : Option Bool) (setter : SetterKind)

/-- A model definition after `__preCreate__` merging: its tag identifies the
prototype for `typeOf` checks; `properties`, `hasMany` and `hasOne` are the
three schema dictionaries. -/
inductive Definition where
  | mk (tag : Nat) (properties : List (String × PropDecl))
       (hasMany : List (String × Definition))
       (hasOne : List (String × Definition))

end

def PropDecl.type : PropDecl → Option Ty
  | .mk t _ _ _ _ => t

def PropDecl.defaultValue : PropDecl → Option Value
  | .mk _ d _ _ _ => d

def PropDecl.sync : PropDecl → Bool
  | .mk _ _ s _ _ => s

def PropDecl.enumerable : PropDecl → Option Bool
  | .mk _ _ _ e _ => e

def PropDecl.setter : PropDecl → SetterKind
  | .mk _ _ _ _ s => s

def Definition.tag : Definition → Nat
  | .mk t _ _ _ => t

def Definition.properties : Definition → List (String × PropDecl)
  | .mk _ p _ _ => p

def Definition.hasMany : Definition → List (String × Definition)
  | .mk _ _ h _ => h

def Definition.hasOne : Definition → List (String × Definition)
  | .mk _ _ _ h => h

/-- First-match association-list lookup: JS property access on a record. -/
def lookupDict {α : Type} : List (String × α) → String → Option α
  | [], _ => none
  | (k, v) :: rest, key => if k == key then some v else lookupDict rest key

/-- JS member read `data[k]`: `undefined` when the key is absent. -/
def rawGet (fields : List (String × Value)) (k : String) : Value :=
  (lookupDict fields k).getD .undefV

/-- `is.hasOwnKey`: key presence (a present `undefined` value still counts). -/
def hasOwnKey (k : String) (fields : List (String × Value)) : Bool :=
  (lookupDict fields k).isSome

/-- Modelled from the spec: `is.typeOf` / `is.enforce` of the external
super-is package (spec section 4.1): a value satisfies a primitive tag by
its runtime type, a Collection by collection identity, and a model
definition when it is an instance of that definition. -/
def tyCheck : Ty → Value → Bool
  | .stringTy, .str _ => true
  | .numberTy, .num _ => true
  | .booleanTy, .boolV _ => true
  | .arrayTy, .arrV _ _ => true
  | .collectionTy, .collV _ _ => true
  | .modelTy d, .inst tg _ => tg == d.tag
  | _, _ => false

/-- Whether a declared type is itself a model definition:
`typeOf(Base, declaration.type)` in the reconciler. -/
def isModelTy : Option Ty → Bool
  | some (.modelTy _) => true
  | _ => false

/-- JS string coercion as used by `model.id + "-" + name` in `initHasMany`.
Only the cases that concatenation can actually meet in the claims are
given meaningful renderings. -/
def jsToString : Value → String
  | .undefV => "undefined"
  | .str s => s
  | .num n => toString n
  | .boolV true => "true"
  | .boolV false => "false"
  | _ => "[object]"

/-- Modelled from the spec: the external identifier generator (spec
section 6) produces opaque unique strings; modelled as a counter. -/
def genId (n : Nat) : String := "uuid-" ++ toString n

/-- Errors: `TypeViolation` thrown by `enforce`; the aggregate array thrown
at the end of a failing `__init__`; a read of a member of `undefined`
(the JS TypeError the reconciler hits on an undeclared property); and the
embedding's fuel-exhaustion artefact. -/
inductive Err where
  | typeViolation (t : Ty) (v : Value)
  | aggregate (errs : List Err)
  | lookupFailed (name : String)
  | outOfFuel

/-- A local event `model.emit(name, {value, model})` (the back-reference to
the model is dropped). -/
structure LEvent where
  name : String
  value : Value

/-- Global events on the shared bus: `process.emit('sync', …)` and
`process.emit('registry:add', …)`. -/
inductive GEvent where
  | syncEv (id : Value) (property : String) (value : Value)
  | registryAdd (tag : Nat) (id : Value)

/-- Installed per-instance accessors: a plain property (declaration plus the
effective enumerable flag passed to `createProperty`) or a has-one
relationship accessor. -/
inductive Accessor where
  | plain (decl : PropDecl) (enum : Bool)
  | hasOneAcc (relation : Definition)

/-- A live instance: its definition tag, the layered `_data` store (newest
frame first), the installed accessors in installation order, and the
transient `_dropsync` flag. -/
structure ModelInst where
  tag : Nat
  dataFrames : List (String × Value)
  props : List (String × Accessor)
  dropsync : Bool

/-- Process-wide state threaded through every run: the allocation counter
for fresh JS objects, the uuid counter, the collection heap, and the global
event log (chronological). -/
structure CState where
  alloc : Nat
  nextId : Nat
  colls : List (Nat × List Value)
  gevents : List GEvent

/-- Result of one write through an accessor: the escaped exception if any,
the instance afterwards (JS objects persist through throws), the local
events this write emitted, and the updated process state. -/
structure SetOut where
  err? : Option Err
  m : ModelInst
  levs : List LEvent
  st : CState

/-- Result of one `__init__` call: the escaped exception if any, the
instance, the error sink `e.errors` after the call (for merging into a
parent construction), and the updated process state. -/
structure InitOut where
  err? : Option Err
  m : ModelInst
  sink : List Err
  st : CState

def applySet : SetterKind → Value → Value
  | .idSet, v => v
  | .mapSet f, v => f v

def findAccessor (m : ModelInst) (name : String) : Option Accessor :=
  lookupDict m.props name

/-- The identity getter read of `this._data[name]` (custom `get` transforms
are outside the claims' scope). -/
def readData (m : ModelInst) (name : String) : Value :=
  rawGet m.dataFrames name

/-- Store-and-emit tail of the write pipeline of `set` (src/Base.js:36-52):
layer a new `_data` frame, emit the local change event, then emit a sync
event iff the declaration is sync-enabled and `_dropsync` is unset. -/
def setStore (m : ModelInst) (name : String) (decl : PropDecl) (value : Value)
    (st : CState) : SetOut :=
  let m' : ModelInst := { m with dataFrames := (name, value) :: m.dataFrames }
  let levs : List LEvent := [⟨name, value⟩]
  if decl.sync && !m'.dropsync then
    { err? := none, m := m', levs := levs,
      st := { st with
        gevents := st.gevents ++ [.syncEv (readData m' "id") name value] } }
  else
    { err? := none, m := m', levs := levs, st := st }

/-- The write pipeline `set(model, name, definition, value)`
(src/Base.js:30-53).  Note that in src/Base.js the enforcement guard is
`if (definition.type)` with no absent-value bypass: a declared type is
enforced on every incoming value, `undefined` included. -/
def setProp (m : ModelInst) (name : String) (decl : PropDecl) (value : Value)
    (st : CState) : SetOut :=
  match decl.type with
  | some t =>
    if tyCheck t value then setStore m name decl value st
    else { err? := some (.typeViolation t value), m := m, levs := [], st := st }
  | none => setStore m name decl value st

/-- Assigning through a plain property accessor: the installed setter first
applies `definition.set` to the incoming value, then runs the write
pipeline (src/Base.js:70-74). -/
def assignPlain (m : ModelInst) (name : String) (decl : PropDecl) (v : Value)
    (st : CState) : SetOut :=
  setProp m name decl (applySet decl.setter v) st

/-- One step of the `__preCreate__` reduce: insert an entry only when its
key is not already present (src/Base.js:347-352). -/
def insertAbsent {α : Type} (acc : List (String × α)) (kv : String × α) :
    List (String × α) :=
  if (lookupDict acc kv.1).isSome then acc else acc ++ [kv]

/-- The schema-dictionary merge of `__preCreate__`: chain the derived
dictionary before the base one and fold entries into a fresh dictionary,
first occurrence of a key winning. -/
def mergeDicts {α : Type} (derived base : List (String × α)) :
    List (String × α) :=
  (derived ++ base).foldl insertAbsent []

/-- `__preCreate__` (src/Base.js:339-358): merge each of the three schema
dictionaries of a derived definition with the base definition's,
derived entries shadowing same-named base entries, into a fresh
definition. -/
def mergeDefinition (tag : Nat) (derived base : Definition) : Definition :=
  .mk tag (mergeDicts derived.properties base.properties)
    (mergeDicts derived.hasMany base.hasMany)
    (mergeDicts derived.hasOne base.hasOne)

/-- The effective enumerable flag computed by `initProperties`:
`!(hasKeyOfValue('enumerable', false, definition))`. -/
def enumOf (decl : PropDecl) : Bool :=
  match decl.enumerable with
  | some false => false
  | _ => true

/-- Default seeding inside `createProperty` (src/Base.js:81-89): when a
default value is declared, an array-typed default is replaced by a fresh
empty array, and the (transformed) value is written straight into `_data`
with no enforcement and no events. -/
def seedDefault (m : ModelInst) (name : String) (decl : PropDecl)
    (st : CState) : ModelInst × CState :=
  match decl.defaultValue with
  | none => (m, st)
  | some dv =>
    match dv with
    | .arrV _ _ =>
      ({ m with dataFrames := (name, applySet decl.setter (.arrV st.alloc [])) :: m.dataFrames },
       { st with alloc := st.alloc + 1 })
    | _ =>
      ({ m with dataFrames := (name, applySet decl.setter dv) :: m.dataFrames }, st)

/-- `initProperties` (src/Base.js:147-172): for every declared property not
already present on the model, install an accessor via `createProperty` with
the computed enumerable flag, and seed its default. -/
def installProps : List (String × PropDecl) → ModelInst → CState →
    ModelInst × CState
  | [], m, st => (m, st)
  | (name, decl) :: rest, m, st =>
    if (findAccessor m name).isSome then installProps rest m st
    else
      let m' : ModelInst :=
        { m with props := m.props ++ [(name, .plain decl (enumOf decl))] }
      let (m'', st') := seedDefault m' name decl st
      installProps rest m'' st'

/-- `initHasMany` (src/Base.js:179-204): for every has-many relation not
already a property, allocate a fresh ordered collection whose id is
`model.id + "-" + name` (note: `model.id` is read before `updateProperties`
has run) and install a non-enumerable Collection-typed property with that
collection as default.  `Collection.init` is modelled from the spec
(section 6) as allocation of a fresh collection object. -/
def installHasMany : List (String × Definition) → ModelInst → CState →
    ModelInst × CState
  | [], m, st => (m, st)
  | (name, _) :: rest, m, st =>
    if (findAccessor m name).isSome then installHasMany rest m st
    else
      let cid := jsToString (readData m "id") ++ "-" ++ name
      let addr := st.alloc
      let st' : CState :=
        { st with alloc := st.alloc + 1, colls := (addr, []) :: st.colls }
      let decl : PropDecl :=
        .mk (some .collectionTy) (some (.collV addr cid)) false none .idSet
      let m' : ModelInst :=
        { m with props := m.props ++ [(name, .plain decl false)],
                 dataFrames := (name, .collV addr cid) :: m.dataFrames }
      installHasMany rest m' st'

/-- `initHasOne` (src/Base.js:210-231): for every has-one relation not
already a property, install the non-enumerable relationship accessor typed
to the child definition. -/
def installHasOne : List (String × Definition) → ModelInst → CState →
    ModelInst × CState
  | [], m, st => (m, st)
  | (name, rel) :: rest, m, st =>
    if (findAccessor m name).isSome then installHasOne rest m st
    else
      installHasOne rest { m with props := m.props ++ [(name, .hasOneAcc rel)] } st

/-- The loop of `updateProperties` (src/Base.js:243-257): iterate the
enumerable own properties; for each whose name is present in the raw data,
assign through the accessor, catching any thrown violation into the error
sink. -/
def upLoop (data : List (String × Value)) :
    List (String × Accessor) → ModelInst → List Err → CState →
    ModelInst × List Err × CState
  | [], m, errs, st => (m, errs, st)
  | (name, .plain decl true) :: rest, m, errs, st =>
    if hasOwnKey name data then
      let r := assignPlain m name decl (rawGet data name) st
      match r.err? with
      | some e => upLoop data rest r.m (errs ++ [e]) r.st
      | none => upLoop data rest r.m errs r.st
    else upLoop data rest m errs st
  | _ :: rest, m, errs, st => upLoop data rest m errs st

/-- `updateProperties` (src/Base.js:239-259): assign `model.id = data.id`
first (outside any try, so an id violation escapes the sink), then run the
enumerable-property loop. -/
def updateProps (m : ModelInst) (data : List (String × Value))
    (errs : List Err) (st : CState) :
    Option Err × ModelInst × List Err × CState :=
  match findAccessor m "id" with
  | some (.plain decl _) =>
    let r := assignPlain m "id" decl (rawGet data "id") st
    match r.err? with
    | some e => (some e, r.m, errs, r.st)
    | none =>
      let (m2, errs2, st2) := upLoop data r.m.props r.m errs r.st
      (none, m2, errs2, st2)
  | _ =>
    let (m2, errs2, st2) := upLoop data m.props m errs st
    (none, m2, errs2, st2)

/-- The instance value a constructed child contributes when stored or added
to a collection: a reference carrying its prototype tag and its id. -/
def instVal (m : ModelInst) : Value :=
  .inst m.tag (jsToString (readData m "id"))

/-- The declaration the has-one accessor is created with
(src/Base.js:217-225): typed to the relation; its custom setter is applied
at the assignment sites below. -/
def hasOneDecl (rel : Definition) : PropDecl :=
  .mk (some (.modelTy rel)) none false none .idSet

/-- Assignment through a has-one accessor (src/Base.js:221-223): the setter
returns the value unchanged when it is already an instance of the relation,
otherwise instantiates it via `relation.init(data)` (throwing on a failed
child construction); the result then runs the write pipeline, enforced
against the relation type.  Parameterised by the instantiation function to
tie the recursive knot. -/
def assignHasOneWith
    (initF : Definition → Value → Option (List Err) → CState → InitOut)
    (m : ModelInst) (name : String) (rel : Definition) (v : Value)
    (st : CState) : SetOut :=
  if tyCheck (.modelTy rel) v then
    setProp m name (hasOneDecl rel) v st
  else
    let out := initF rel v none st
    match out.err? with
    | some e => { err? := some e, m := m, levs := [], st := out.st }
    | none => setProp m name (hasOneDecl rel) (instVal out.m) out.st

/-- `model[name].add(item)`: the external collection's `add`, modelled from
the spec (section 6) as appending to the collection heap entry. -/
def addToColl (st : CState) (addr : Nat) (v : Value) : CState :=
  { st with
    colls := st.colls.map (fun p => if p.1 == addr then (p.1, p.2 ++ [v]) else p) }

/-- The inner loop of `createHasMany` (src/Base.js:113-116): construct each
raw child record through `relation.init(data, e)` — sharing the parent's
error sink, so a failing child never throws — and add the child to the
parent's collection.  An exception escaping a child construction (only the
uncaught id assignment can raise one) aborts the whole construction. -/
def initChildrenWith
    (initF : Definition → Value → Option (List Err) → CState → InitOut)
    (rel : Definition) (m : ModelInst) (name : String) :
    List Value → List Err → CState → Option Err × List Err × CState
  | [], errs, st => (none, errs, st)
  | r :: rs, errs, st =>
    let out := initF rel r (some errs) st
    match out.err? with
    | some e => (some e, out.sink, out.st)
    | none =>
      let st' :=
        match readData m name with
        | .collV addr _ => addToColl out.st addr (instVal out.m)
        | _ => out.st
      initChildrenWith initF rel m name rs out.sink st'

/-- `createHasMany` (src/Base.js:107-121): for every declared has-many name
present in the raw data, construct and add every raw child record. -/
def runHasManyWith
    (initF : Definition → Value → Option (List Err) → CState → InitOut)
    (data : List (String × Value)) :
    List (String × Definition) → ModelInst → List Err → CState →
    Option Err × ModelInst × List Err × CState
  | [], m, errs, st => (none, m, errs, st)
  | (name, rel) :: rest, m, errs, st =>
    if hasOwnKey name data then
      let records :=
        match rawGet data name with
        | .arrV _ es => es
        | _ => []
      match initChildrenWith initF rel m name records errs st with
      | (some e, errs', st') => (some e, m, errs', st')
      | (none, errs', st') => runHasManyWith initF data rest m errs' st'
    else runHasManyWith initF data rest m errs st

/-- `createHasOne` (src/Base.js:129-140): for every declared has-one name
present in the raw data, construct the child through
`relation.init(data[name], e)` — sharing the parent's error sink — and
assign the resulting instance through the relationship accessor. -/
def runHasOneWith
    (initF : Definition → Value → Option (List Err) → CState → InitOut)
    (data : List (String × Value)) :
    List (String × Definition) → ModelInst → List Err → CState →
    Option Err × ModelInst × List Err × CState
  | [], m, errs, st => (none, m, errs, st)
  | (name, rel) :: rest, m, errs, st =>
    if hasOwnKey name data then
      let out := initF rel (rawGet data name) (some errs) st
      match out.err? with
      | some e => (some e, m, out.sink, out.st)
      | none =>
        let r := assignHasOneWith initF m name rel (instVal out.m) out.st
        match r.err? with
        | some e => (some e, r.m, out.sink, r.st)
        | none => runHasOneWith initF data rest r.m out.sink r.st
    else runHasOneWith initF data rest m errs st

/-- `data = data || {}` and reading the raw record's fields; non-record raw
data contributes no fields (unmodelled edge: the claims only construct from
records). -/
def rawFields : Value → List (String × Value)
  | .obj fs => fs
  | _ => []

/-- The populate-and-finish tail of `__init__` (src/Base.js:390-399):
apply the raw property values, populate both relationship kinds collecting
errors into the shared sink, then either throw the whole sink as one
aggregate (only when this call owns the sink) or register the instance on
the process bus. -/
def populateBody
    (initF : Definition → Value → Option (List Err) → CState → InitOut)
    (d : Definition) (fields : List (String × Value)) (errs0 : List Err)
    (throwErrors : Bool) (m3 : ModelInst) (st4 : CState) : InitOut :=
  match updateProps m3 fields errs0 st4 with
  | (some e, m4, errs1, st5) => { err? := some e, m := m4, sink := errs1, st := st5 }
  | (none, m4, errs1, st5) =>
    match runHasManyWith initF fields d.hasMany m4 errs1 st5 with
    | (some e, m5, errs2, st6) => { err? := some e, m := m5, sink := errs2, st := st6 }
    | (none, m5, errs2, st6) =>
      match runHasOneWith initF fields d.hasOne m5 errs2 st6 with
      | (some e, m6, errs3, st7) => { err? := some e, m := m6, sink := errs3, st := st7 }
      | (none, m6, errs3, st7) =>
        if throwErrors && !errs3.isEmpty then
          { err? := some (.aggregate errs3), m := m6, sink := errs3, st := st7 }
        else
          { err? := none, m := m6, sink := errs3,
            st := { st7 with
              gevents := st7.gevents ++ [.registryAdd d.tag (readData m6 "id")] } }

/-- The body of `__init__` (src/Base.js:365-401), parameterised by the
instantiation function used for nested children: create a fresh sink unless
one is inherited, generate an id if the raw data has none, install
properties and both relationship kinds, then populate and finish. -/
def initBody
    (initF : Definition → Value → Option (List Err) → CState → InitOut)
    (d : Definition) (data0 : Value) (eIn : Option (List Err))
    (st0 : CState) : InitOut :=
  let throwErrors := eIn.isNone
  let errs0 := eIn.getD []
  let fields0 := rawFields data0
  let (fields, st1) :=
    match rawGet fields0 "id" with
    | .undefV => (("id", Value.str (genId st0.nextId)) :: fields0,
                 { st0 with nextId := st0.nextId + 1 })
    | _ => (fields0, st0)
  let m0 : ModelInst := ⟨d.tag, [], [], false⟩
  let (m1, st2) := installProps d.properties m0 st1
  let (m2, st3) := installHasMany d.hasMany m1 st2
  let (m3, st4) := installHasOne d.hasOne m2 st3
  populateBody initF d fields errs0 throwErrors m3 st4

/-- Fuel-exhaustion base case of the embedding (never reached at adequate
fuel). -/
def initZero (d : Definition) (_ : Value) (eIn : Option (List Err))
    (st : CState) : InitOut :=
  { err? := some .outOfFuel, m := ⟨d.tag, [], [], false⟩,
    sink := eIn.getD [], st := st }

/-- `__init__` with a fuel bound on nesting depth; defined by `Nat.rec` so
that every concrete run reduces definitionally. -/
def initModel (fuel : Nat) :
    Definition → Value → Option (List Err) → CState → InitOut :=
  Nat.rec (motive := fun _ => Definition → Value → Option (List Err) → CState → InitOut)
    initZero (fun _ ih => initBody ih) fuel

theorem initModel_zero : initModel 0 = initZero := rfl

theorem initModel_succ (fuel : Nat) :
    initModel (fuel + 1) = initBody (initModel fuel) := rfl

/-- Generic assignment `this[name] = value` through whatever accessor is
installed (src/Base.js:62-78): plain properties run the declared setter
then the write pipeline; has-one accessors run the relationship setter. -/
def assignViaAccessor (fuel : Nat) (m : ModelInst) (name : String) (v : Value)
    (st : CState) : SetOut :=
  match findAccessor m name with
  | some (.plain decl _) => assignPlain m name decl v st
  | some (.hasOneAcc rel) => assignHasOneWith (initModel fuel) m name rel v st
  | none => { err? := some (.lookupFailed name), m := m, levs := [], st := st }

/-- Reset of `_dropsync` after a successful reconciled assignment; an
escaped exception skips it (src/Base.js:425-427: the flag is only reset on
the line after the assignment). -/
def finishSync (r : SetOut) : SetOut :=
  match r.err? with
  | some _ => r
  | none => { r with m := { r.m with dropsync := false } }

/-- The `sync` reconciler (src/Base.js:415-431): set `_dropsync`, look the
property up in the schema dictionary (a missing declaration is the JS
TypeError of reading `.type` of `undefined`), re-instantiate the payload
value through the declared type when that type is itself a model
definition, assign through the normal accessor, and reset `_dropsync` only
after a successful assignment. -/
def syncApply (fuel : Nat) (d : Definition) (m : ModelInst)
    (property : String) (value : Value) (st : CState) : SetOut :=
  let m' : ModelInst := { m with dropsync := true }
  match lookupDict d.properties property with
  | none => { err? := some (.lookupFailed property), m := m', levs := [], st := st }
  | some decl =>
    match decl.type with
    | some (.modelTy child) =>
      let out := initModel fuel child value none st
      match out.err? with
      | some e => { err? := some e, m := m', levs := [], st := out.st }
      | none => finishSync (assignViaAccessor fuel m' property (instVal out.m) out.st)
    | _ => finishSync (assignViaAccessor fuel m' property value st)

/-! ### Concrete fixtures

Mirroring the repository's own test schema: a child model with a
string-typed `name`, a parent with typed test properties and a `children`
has-many relation.  `idDecl` is the built-in `id` declaration of `Base`
(src/Base.js:295-298). -/

def idDecl : PropDecl := .mk (some .stringTy) none false (some false) .idSet

def strDecl : PropDecl := .mk (some .stringTy) none false none .idSet

def numDecl : PropDecl := .mk (some .numberTy) none false none .idSet

def syncDecl : PropDecl := .mk none none true none .idSet

def strSyncDecl : PropDecl := .mk (some .stringTy) none true none .idSet

def st0 : CState := ⟨100, 0, [], []⟩

def ChildModel : Definition := .mk 2 [("id", idDecl), ("name", strDecl)] [] []

def mInst0 : ModelInst :=
  ⟨1, [("id", .str "m1")],
   [("stringTest", .plain strDecl true), ("syncTest", .plain syncDecl true)],
   false⟩

def d4 : Definition :=
  .mk 1 [("stringTest", strDecl), ("syncTest", syncDecl)] [] []

def vraw : Value := .obj [("name", .str "si-after")]

/-- A parent model with one has-many relation to the child model. -/
def P5 : Definition := .mk 1 [("id", idDecl)] [("children", ChildModel)] []

/-- Raw construction data with a single invalid child record
(`{children: [{name: 10}]}`; the child's `name` is declared string). -/
def d5 : Value := .obj [("children", .arrV 0 [.obj [("name", .num 10)]])]

/-- A parent model with an array-sentinel default property and a has-many
relation, for the per-instance default claims. -/
def arrDecl : PropDecl := .mk none (some (.arrV 0 [])) false none .idSet

def P8 : Definition :=
  .mk 3 [("id", idDecl), ("arrayTest", arrDecl)] [("kids", ChildModel)] []

def out81 : InitOut := initModel 1 P8 (.obj [("id", .str "p1")]) none st0

def out82 : InitOut := initModel 1 P8 (.obj [("id", .str "p2")]) none out81.st

/-- The violations `updateProperties` collects from one pass over a list of
installed accessors: one `TypeViolation` for every enumerable plain
property whose name is present in the raw data and whose (transformed)
incoming value fails the declared type.  This is the reference list the
construction-time aggregate is proved equal to. -/
def violList (data : List (String × Value)) :
    List (String × Accessor) → List Err
  | [] => []
  | (name, .plain decl true) :: rest =>
    (if hasOwnKey name data then
       (match decl.type with
        | some t =>
          if tyCheck t (applySet decl.setter (rawGet data name)) then []
          else [.typeViolation t (applySet decl.setter (rawGet data name))]
        | none => [])
     else []) ++ violList data rest
  | _ :: rest => violList data rest

/-- The same violation list computed over the schema's property
declarations rather than installed accessors. -/
def specViols (data : List (String × Value)) :
    List (String × PropDecl) → List Err
  | [] => []
  | (name, decl) :: rest =>
    (if enumOf decl then
       (if hasOwnKey name data then
          (match decl.type with
           | some t =>
             if tyCheck t (applySet decl.setter (rawGet data name)) then []
             else [.typeViolation t (applySet decl.setter (rawGet data name))]
           | none => [])
        else [])
     else []) ++ specViols data rest

/-- The repository test's pair of typed properties used as concrete data
for the aggregation claim. -/
def psC1 : List (String × PropDecl) :=
  [("stringTest", strDecl), ("numberTest", numDecl)]

/-- Concrete raw data with two invalid fields
(`{stringTest: 10, numberTest: "x"}`). -/
def dataC1 : List (String × Value) :=
  [("stringTest", .num 10), ("numberTest", .str "x")]

/-! ### Lookup lemmas for the definition merge -/

theorem lookupDict_append {α : Type} (l₁ l₂ : List (String × α)) (k : String) :
    lookupDict (l₁ ++ l₂) k =
      ((lookupDict l₁ k).orElse fun _ => lookupDict l₂ k) := by
  induction l₁ with
  | nil => simp [lookupDict]
  | cons kv rest ih =>
    by_cases h : kv.1 = k
    · simp [lookupDict, h]
    · simpa [lookupDict, h] using ih

theorem lookupDict_foldl_insertAbsent {α : Type} (l acc : List (String × α))
    (k : String) :
    lookupDict (l.foldl insertAbsent acc) k =
      ((lookupDict acc k).orElse fun _ => lookupDict l k) := by
  induction l generalizing acc with
  | nil => cases h : lookupDict acc k <;> simp [lookupDict, h, Option.orElse]
  | cons kv rest ih =>
    show lookupDict (rest.foldl insertAbsent (insertAbsent acc kv)) k = _
    rw [ih]
    unfold insertAbsent
    by_cases hpres : (lookupDict acc kv.1).isSome
    · rw [if_pos hpres]
      by_cases hk : kv.1 = k
      · subst hk
        obtain ⟨w, hw⟩ := Option.isSome_iff_exists.mp hpres
        simp [lookupDict, hw, Option.orElse]
      · simp [lookupDict, hk]
    · rw [if_neg hpres]
      rw [lookupDict_append]
      by_cases hk : kv.1 = k
      · subst hk
        rw [Option.not_isSome_iff_eq_none] at hpres
        simp [lookupDict, hpres, Option.orElse]
      · cases h : lookupDict acc k <;>
          simp [lookupDict, hk, h, Option.orElse]

/-- C7: deriving a model definition merges each of the three schema
dictionaries independently so that every derived entry is present and
shadows a same-named base entry, while every base entry whose key is not
redeclared remains visible — stated as the first-match lookup of the
merged dictionary agreeing with lookup-in-derived-else-lookup-in-base for
every key.  The merge builds a fresh dictionary by folding, so the two
input dictionaries are returned untouched (the embedding is pure exactly
because the source mutates neither input). -/
theorem merge_definition_shadowing (tag : Nat) (derived base : Definition)
    (k : String) :
    lookupDict (mergeDefinition tag derived base).properties k =
      ((lookupDict derived.properties k).orElse fun _ =>
        lookupDict base.properties k) ∧
    lookupDict (mergeDefinition tag derived base).hasMany k =
      ((lookupDict derived.hasMany k).orElse fun _ =>
        lookupDict base.hasMany k) ∧
    lookupDict (mergeDefinition tag derived base).hasOne k =
      ((lookupDict derived.hasOne k).orElse fun _ =>
        lookupDict base.hasOne k) := by
  refine ⟨?_, ?_, ?_⟩ <;>
    · show lookupDict (mergeDicts _ _) k = _
      unfold mergeDicts
      rw [lookupDict_foldl_insertAbsent, lookupDict_append]
      simp [lookupDict]

/-! ### The write pipeline: violation atomicity, sync emission, absent
values -/

/-- C2: assigning a value that fails the declared type through a property
setter throws a `TypeViolation` and changes nothing: the instance (and in
particular its layered `_data` store) is returned exactly as it was, no
local change event is emitted, and the process state (so in particular the
sync event log) is untouched.  The violation is raised on the transformed
value, as the pipeline applies `definition.set` before enforcing. -/
theorem typed_set_violation_atomic (m : ModelInst) (name : String)
    (decl : PropDecl) (v : Value) (st : CState) (t : Ty)
    (ht : decl.type = some t)
    (hv : tyCheck t (applySet decl.setter v) = false) :
    assignPlain m name decl v st =
      ⟨some (.typeViolation t (applySet decl.setter v)), m, [], st⟩ := by
  simp [assignPlain, setProp, ht, hv]

/-- C2 witness: assigning the number `10` to the string-typed property of a
concrete instance. -/
theorem typed_set_violation_atomic_witness :
    assignPlain mInst0 "stringTest" strDecl (.num 10) st0 =
      ⟨some (.typeViolation .stringTy (.num 10)), mInst0, [], st0⟩ :=
  typed_set_violation_atomic mInst0 "stringTest" strDecl (.num 10) st0
    .stringTy rfl rfl

/-- C3: a successful assignment while `_dropsync` is unset emits exactly
one sync event — with the instance's id, the property name and the
assigned (transformed) value — when the declaration is sync-enabled, and
appends no sync event at all otherwise; in both cases exactly one local
change event carries the transformed value. -/
theorem set_sync_emission (m : ModelInst) (name : String) (decl : PropDecl)
    (v : Value) (st : CState)
    (hok : (assignPlain m name decl v st).err? = none)
    (hds : m.dropsync = false) :
    (assignPlain m name decl v st).st.gevents =
      st.gevents ++
        (if decl.sync then
          [GEvent.syncEv (readData (assignPlain m name decl v st).m "id") name
            (applySet decl.setter v)]
        else []) ∧
    (assignPlain m name decl v st).levs = [⟨name, applySet decl.setter v⟩] := by
  unfold assignPlain setProp at hok ⊢
  cases ht : decl.type with
  | none =>
    simp only [ht]
    cases hs : decl.sync <;> simp [setStore, hds, hs]
  | some t =>
    simp only [ht] at hok ⊢
    cases hc : tyCheck t (applySet decl.setter v) with
    | false => simp [hc] at hok
    | true =>
      simp only [hc, if_true]
      cases hs : decl.sync <;> simp [setStore, hds, hs]

/-- C3 witness: assigning to the sync-enabled untyped property of a
concrete instance emits exactly the one expected sync event, while the
non-sync string property emits none. -/
theorem set_sync_emission_witness :
    (assignPlain mInst0 "syncTest" syncDecl (.str "x") st0).st.gevents =
      st0.gevents ++
        [GEvent.syncEv
          (readData (assignPlain mInst0 "syncTest" syncDecl (.str "x") st0).m "id")
          "syncTest" (.str "x")] ∧
    (assignPlain mInst0 "syncTest" syncDecl (.str "x") st0).levs =
      [⟨"syncTest", .str "x"⟩] :=
  set_sync_emission mInst0 "syncTest" syncDecl (.str "x") st0 rfl rfl

theorem tyCheck_undef (t : Ty) : tyCheck t .undefV = false := by
  cases t <;> rfl

/-- C6 counterexample: in src/Base.js the enforcement guard is
`if (definition.type)` with no absent-value bypass, so assigning
`undefined` to the string-typed property of a concrete instance does
invoke type enforcement, raises a `TypeViolation`, and stores nothing —
the claim that absent values are never enforced and are stored to clear
the property is false on this code. -/
theorem undef_assignment_enforced_cex :
    (assignPlain mInst0 "stringTest" strDecl .undefV st0).err? =
      some (.typeViolation .stringTy .undefV) ∧
    (assignPlain mInst0 "stringTest" strDecl .undefV st0).m.dataFrames =
      mInst0.dataFrames :=
  ⟨rfl, rfl⟩

/-- C6 (amended): assigning an absent value to a property with any
declared type and the identity transform always invokes enforcement,
which the absent value fails for every type, so the assignment throws a
`TypeViolation` and leaves the instance and the process state untouched —
a typed property cannot be cleared by assigning `undefined` in this
version of the code. -/
theorem undef_assignment_raises_violation (m : ModelInst) (name : String)
    (t : Ty) (dv : Option Value) (sy : Bool) (en : Option Bool)
    (st : CState) :
    assignPlain m name (.mk (some t) dv sy en .idSet) .undefV st =
      ⟨some (.typeViolation t .undefV), m, [], st⟩ := by
  simp [assignPlain, setProp, applySet, PropDecl.type, PropDecl.setter,
    tyCheck_undef]

/-! ### Small facts about the write pipeline -/

theorem setStore_levs (m : ModelInst) (name : String) (decl : PropDecl)
    (value : Value) (st : CState) :
    (setStore m name decl value st).levs = [⟨name, value⟩] := by
  unfold setStore; dsimp only; split <;> rfl

theorem setStore_err (m : ModelInst) (name : String) (decl : PropDecl)
    (value : Value) (st : CState) :
    (setStore m name decl value st).err? = none := by
  unfold setStore; dsimp only; split <;> rfl

theorem setStore_m (m : ModelInst) (name : String) (decl : PropDecl)
    (value : Value) (st : CState) :
    (setStore m name decl value st).m =
      { m with dataFrames := (name, value) :: m.dataFrames } := by
  unfold setStore; dsimp only; split <;> rfl

theorem setProp_dropsync (m : ModelInst) (name : String) (decl : PropDecl)
    (value : Value) (st : CState) :
    (setProp m name decl value st).m.dropsync = m.dropsync := by
  unfold setProp
  cases decl.type with
  | none => rw [setStore_m]
  | some t =>
    dsimp only
    by_cases h : tyCheck t value
    · rw [if_pos h, setStore_m]
    · rw [if_neg h]

theorem setProp_tag (m : ModelInst) (name : String) (decl : PropDecl)
    (value : Value) (st : CState) :
    (setProp m name decl value st).m.tag = m.tag := by
  unfold setProp
  cases decl.type with
  | none => rw [setStore_m]
  | some t =>
    dsimp only
    by_cases h : tyCheck t value
    · rw [if_pos h, setStore_m]
    · rw [if_neg h]

theorem setProp_props (m : ModelInst) (name : String) (decl : PropDecl)
    (value : Value) (st : CState) :
    (setProp m name decl value st).m.props = m.props := by
  unfold setProp
  cases decl.type with
  | none => rw [setStore_m]
  | some t =>
    dsimp only
    by_cases h : tyCheck t value
    · rw [if_pos h, setStore_m]
    · rw [if_neg h]

/-- A latched `_dropsync` makes the write pipeline leave the process state
(and hence the sync log) untouched, whether the write succeeds or
throws. -/
theorem setProp_st_of_dropsync (m : ModelInst) (name : String)
    (decl : PropDecl) (value : Value) (st : CState)
    (h : m.dropsync = true) :
    (setProp m name decl value st).st = st := by
  have hstore : (setStore m name decl value st).st = st := by
    unfold setStore
    dsimp only
    simp [h]
  unfold setProp
  cases decl.type with
  | none => exact hstore
  | some t =>
    dsimp only
    by_cases hc : tyCheck t value
    · rw [if_pos hc]; exact hstore
    · rw [if_neg hc]

theorem assignPlain_levs (m : ModelInst) (name : String) (decl : PropDecl)
    (v : Value) (st : CState) :
    (assignPlain m name decl v st).levs =
      (match decl.type with
       | some t =>
         if tyCheck t (applySet decl.setter v) then
           [(⟨name, applySet decl.setter v⟩ : LEvent)]
         else []
       | none => [(⟨name, applySet decl.setter v⟩ : LEvent)]) := by
  unfold assignPlain setProp
  cases decl.type with
  | none => rw [setStore_levs]
  | some t =>
    dsimp only
    by_cases h : tyCheck t (applySet decl.setter v)
    · rw [if_pos h, if_pos h, setStore_levs]
    · rw [if_neg h, if_neg h]

theorem finishSync_err (r : SetOut) : (finishSync r).err? = r.err? := by
  unfold finishSync; split <;> rfl

theorem finishSync_st (r : SetOut) : (finishSync r).st = r.st := by
  unfold finishSync; split <;> rfl

theorem finishSync_levs (r : SetOut) : (finishSync r).levs = r.levs := by
  unfold finishSync; split <;> rfl

theorem assignHasOneWith_dropsync
    (initF : Definition → Value → Option (List Err) → CState → InitOut)
    (m : ModelInst) (name : String) (rel : Definition) (v : Value)
    (st : CState) :
    (assignHasOneWith initF m name rel v st).m.dropsync = m.dropsync := by
  unfold assignHasOneWith
  by_cases h : tyCheck (.modelTy rel) v
  · rw [if_pos h]; exact setProp_dropsync ..
  · rw [if_neg h]
    dsimp only
    cases (initF rel v none st).err? with
    | some e => rfl
    | none => exact setProp_dropsync ..

theorem assignViaAccessor_dropsync (fuel : Nat) (m : ModelInst)
    (name : String) (v : Value) (st : CState) :
    (assignViaAccessor fuel m name v st).m.dropsync = m.dropsync := by
  unfold assignViaAccessor
  cases findAccessor m name with
  | none => rfl
  | some acc =>
    cases acc with
    | plain decl e => exact setProp_dropsync ..
    | hasOneAcc rel => exact assignHasOneWith_dropsync ..

/-- Whatever a reconciled assignment does, the instance it returns keeps
the `_dropsync` value it entered with unless the final reset line runs; on
a thrown assignment the flag is untouched. -/
theorem finishSync_dropsync_of_err (fuel : Nat) (m' : ModelInst)
    (p : String) (w : Value) (st : CState)
    (h : ((finishSync (assignViaAccessor fuel m' p w st)).err?).isSome = true) :
    (finishSync (assignViaAccessor fuel m' p w st)).m.dropsync = m'.dropsync := by
  rw [finishSync_err] at h
  unfold finishSync
  split
  · rw [assignViaAccessor_dropsync]
  · rename_i hnone
    rw [hnone] at h
    simp at h

/-! ### Loop-freedom of the reconciler and the latched `_dropsync` flag -/

/-- C4: applying an inbound sync payload for a property whose declared type
is not itself a model definition appends no outbound sync event (and no
global event at all) for that write, while emitting exactly the local
change events a local mutation of the same value would emit — so local
observers fire exactly as for a local mutation. -/
theorem sync_apply_loop_free (fuel : Nat) (d : Definition) (m : ModelInst)
    (p : String) (v : Value) (st : CState) (decl : PropDecl) (e : Bool)
    (hdecl : lookupDict d.properties p = some decl)
    (hnm : isModelTy decl.type = false)
    (hacc : findAccessor m p = some (.plain decl e)) :
    (syncApply fuel d m p v st).st.gevents = st.gevents ∧
    (syncApply fuel d m p v st).levs = (assignPlain m p decl v st).levs := by
  have hacc' : findAccessor { m with dropsync := true } p =
      some (.plain decl e) := hacc
  have hds : (ModelInst.dropsync { m with dropsync := true }) = true := rfl
  have main :
      (finishSync (assignViaAccessor fuel { m with dropsync := true } p v st)).st.gevents
        = st.gevents ∧
      (finishSync (assignViaAccessor fuel { m with dropsync := true } p v st)).levs
        = (assignPlain m p decl v st).levs := by
    constructor
    · rw [finishSync_st]
      unfold assignViaAccessor
      rw [hacc']
      unfold assignPlain
      rw [setProp_st_of_dropsync _ _ _ _ _ hds]
    · rw [finishSync_levs]
      unfold assignViaAccessor
      rw [hacc']
      rw [assignPlain_levs, assignPlain_levs]
  unfold syncApply
  rw [hdecl]
  cases ht : decl.type with
  | none => simpa [ht] using main
  | some t =>
    cases t with
    | modelTy child => rw [ht] at hnm; simp [isModelTy] at hnm
    | stringTy => simpa [ht] using main
    | numberTy => simpa [ht] using main
    | booleanTy => simpa [ht] using main
    | arrayTy => simpa [ht] using main
    | collectionTy => simpa [ht] using main

/-- C4 witness: reconciling a string payload into the concrete instance's
string-typed property touches no global event and emits the same local
change event a local mutation would. -/
theorem sync_apply_loop_free_witness :
    (syncApply 1 d4 mInst0 "stringTest" (.str "ok") st0).st.gevents =
      st0.gevents ∧
    (syncApply 1 d4 mInst0 "stringTest" (.str "ok") st0).levs =
      (assignPlain mInst0 "stringTest" strDecl (.str "ok") st0).levs :=
  sync_apply_loop_free 1 d4 mInst0 "stringTest" (.str "ok") st0 strDecl true
    rfl rfl rfl

/-- A reconciled assignment either completed without an exception (so the
reset line ran) or returned the instance with the `_dropsync` value it
entered with. -/
theorem finishSync_ok_or_latched (fuel : Nat) (m' : ModelInst) (p : String)
    (w : Value) (st : CState) :
    (finishSync (assignViaAccessor fuel m' p w st)).err? = none ∨
    (finishSync (assignViaAccessor fuel m' p w st)).m.dropsync = m'.dropsync := by
  cases hr : (assignViaAccessor fuel m' p w st).err? with
  | none =>
    left
    rw [finishSync_err]
    exact hr
  | some e =>
    right
    unfold finishSync
    split
    · exact assignViaAccessor_dropsync ..
    · rename_i hnone
      rw [hnone] at hr
      cases hr

/-- Every run of the reconciler either returns without an exception or
leaves the instance with `_dropsync` latched true. -/
theorem syncApply_ok_or_latched (fuel : Nat) (d : Definition) (m : ModelInst)
    (p : String) (v : Value) (st : CState) :
    (syncApply fuel d m p v st).err? = none ∨
    (syncApply fuel d m p v st).m.dropsync = true := by
  unfold syncApply
  dsimp only
  cases lookupDict d.properties p with
  | none => right; rfl
  | some decl =>
    dsimp only
    cases decl.type with
    | none => exact finishSync_ok_or_latched fuel _ p v st
    | some t =>
      cases t with
      | modelTy child =>
        dsimp only
        cases (initModel fuel child v none st).err? with
        | some e => right; rfl
        | none => exact finishSync_ok_or_latched fuel _ p _ _
      | stringTy => exact finishSync_ok_or_latched fuel _ p v st
      | numberTy => exact finishSync_ok_or_latched fuel _ p v st
      | booleanTy => exact finishSync_ok_or_latched fuel _ p v st
      | arrayTy => exact finishSync_ok_or_latched fuel _ p v st
      | collectionTy => exact finishSync_ok_or_latched fuel _ p v st

/-- C10: when applying an inbound sync payload throws — a payload value
failing the target's declared type, a failed re-instantiation, or an
undeclared property — the reconciler never reaches the line that resets
`_dropsync`, so the instance is left permanently latched: the flag stays
true and every subsequent run of the write pipeline on that instance
leaves the process state (hence the outbound sync log) untouched, so
sync-enabled local assignments silently stop broadcasting. -/
theorem sync_failure_latches_dropsync (fuel : Nat) (d : Definition)
    (m : ModelInst) (p : String) (v : Value) (st : CState)
    (hfail : ((syncApply fuel d m p v st).err?).isSome = true) :
    (syncApply fuel d m p v st).m.dropsync = true ∧
    ∀ (name : String) (decl : PropDecl) (w : Value) (st' : CState),
      (setProp (syncApply fuel d m p v st).m name decl w st').st = st' := by
  have hlatch : (syncApply fuel d m p v st).m.dropsync = true := by
    cases syncApply_ok_or_latched fuel d m p v st with
    | inl hok => rw [hok] at hfail; cases hfail
    | inr hl => exact hl
  exact ⟨hlatch, fun name decl w st' =>
    setProp_st_of_dropsync _ name decl w st' hlatch⟩

/-- C10 witness: a number payload against the string-typed property leaves
`_dropsync` latched, and a subsequent write to the sync-enabled property
emits no sync event. -/
theorem sync_failure_latches_dropsync_witness :
    (syncApply 1 d4 mInst0 "stringTest" (.num 5) st0).m.dropsync = true ∧
    (setProp (syncApply 1 d4 mInst0 "stringTest" (.num 5) st0).m "syncTest"
      syncDecl (.str "y") st0).st = st0 :=
  ⟨(sync_failure_latches_dropsync 1 d4 mInst0 "stringTest" (.num 5) st0 rfl).1,
   (sync_failure_latches_dropsync 1 d4 mInst0 "stringTest" (.num 5) st0 rfl).2
     "syncTest" syncDecl (.str "y") st0⟩

/-! ### Tag preservation: an instance keeps its definition's prototype tag
through every stage of construction -/

theorem seedDefault_tag (m : ModelInst) (name : String) (decl : PropDecl)
    (st : CState) : ((seedDefault m name decl st).1).tag = m.tag := by
  unfold seedDefault
  cases decl.defaultValue with
  | none => rfl
  | some dv => dsimp only; cases dv <;> rfl

theorem installProps_tag (ps : List (String × PropDecl)) :
    ∀ (m : ModelInst) (st : CState), ((installProps ps m st).1).tag = m.tag := by
  induction ps with
  | nil => intro m st; rfl
  | cons p rest ih =>
    intro m st
    obtain ⟨name, decl⟩ := p
    unfold installProps
    by_cases h : (findAccessor m name).isSome
    · rw [if_pos h]; exact ih m st
    · rw [if_neg h]
      dsimp only
      rcases hs : seedDefault
          { m with props := m.props ++ [(name, .plain decl (enumOf decl))] }
          name decl st with ⟨m2, st2⟩
      dsimp only
      rw [ih m2 st2]
      have h1 := congrArg Prod.fst hs
      dsimp at h1
      rw [← h1, seedDefault_tag]

theorem installHasMany_tag (rels : List (String × Definition)) :
    ∀ (m : ModelInst) (st : CState), ((installHasMany rels m st).1).tag = m.tag := by
  induction rels with
  | nil => intro m st; rfl
  | cons p rest ih =>
    intro m st
    obtain ⟨name, rel⟩ := p
    unfold installHasMany
    by_cases h : (findAccessor m name).isSome
    · rw [if_pos h]; exact ih m st
    · rw [if_neg h]
      dsimp only
      rw [ih _ _]

theorem installHasOne_tag (rels : List (String × Definition)) :
    ∀ (m : ModelInst) (st : CState), ((installHasOne rels m st).1).tag = m.tag := by
  induction rels with
  | nil => intro m st; rfl
  | cons p rest ih =>
    intro m st
    obtain ⟨name, rel⟩ := p
    unfold installHasOne
    by_cases h : (findAccessor m name).isSome
    · rw [if_pos h]; exact ih m st
    · rw [if_neg h]
      rw [ih _ _]

theorem assignPlain_tag (m : ModelInst) (name : String) (decl : PropDecl)
    (v : Value) (st : CState) :
    (assignPlain m name decl v st).m.tag = m.tag := setProp_tag ..

theorem upLoop_tag (data : List (String × Value))
    (accs : List (String × Accessor)) :
    ∀ (m : ModelInst) (errs : List Err) (st : CState),
      ((upLoop data accs m errs st).1).tag = m.tag := by
  induction accs with
  | nil => intro m errs st; rfl
  | cons p rest ih =>
    intro m errs st
    obtain ⟨name, acc⟩ := p
    cases acc with
    | hasOneAcc rel => exact ih m errs st
    | plain decl e =>
      cases e with
      | false => exact ih m errs st
      | true =>
        unfold upLoop
        by_cases h : hasOwnKey name data
        · rw [if_pos h]
          dsimp only
          cases (assignPlain m name decl (rawGet data name) st).err? with
          | some er => rw [ih _ _ _, assignPlain_tag]
          | none => rw [ih _ _ _, assignPlain_tag]
        · rw [if_neg h]; exact ih m errs st

theorem updateProps_tag (m : ModelInst) (data : List (String × Value))
    (errs : List Err) (st : CState) :
    ((updateProps m data errs st).2.1).tag = m.tag := by
  unfold updateProps
  cases findAccessor m "id" with
  | none =>
    dsimp only
    rcases hs : upLoop data m.props m errs st with ⟨m2, errs2, st2⟩
    dsimp only
    have h1 := congrArg (fun q => q.1) hs
    dsimp at h1
    rw [← h1, upLoop_tag]
  | some acc =>
    cases acc with
    | hasOneAcc rel =>
      dsimp only
      rcases hs : upLoop data m.props m errs st with ⟨m2, errs2, st2⟩
      dsimp only
      have h1 := congrArg (fun q => q.1) hs
      dsimp at h1
      rw [← h1, upLoop_tag]
    | plain decl e =>
      dsimp only
      cases (assignPlain m "id" decl (rawGet data "id") st).err? with
      | some er => dsimp only; rw [assignPlain_tag]
      | none =>
        dsimp only
        rcases hs : upLoop data (assignPlain m "id" decl (rawGet data "id") st).m.props
            (assignPlain m "id" decl (rawGet data "id") st).m
            errs (assignPlain m "id" decl (rawGet data "id") st).st with ⟨m2, errs2, st2⟩
        dsimp only
        have h1 := congrArg (fun q => q.1) hs
        dsimp at h1
        rw [← h1, upLoop_tag, assignPlain_tag]

theorem assignHasOneWith_tag
    (initF : Definition → Value → Option (List Err) → CState → InitOut)
    (m : ModelInst) (name : String) (rel : Definition) (v : Value)
    (st : CState) :
    (assignHasOneWith initF m name rel v st).m.tag = m.tag := by
  unfold assignHasOneWith
  by_cases h : tyCheck (.modelTy rel) v
  · rw [if_pos h]; exact setProp_tag ..
  · rw [if_neg h]
    dsimp only
    cases (initF rel v none st).err? with
    | some e => rfl
    | none => exact setProp_tag ..

theorem runHasManyWith_m
    (initF : Definition → Value → Option (List Err) → CState → InitOut)
    (data : List (String × Value)) (rels : List (String × Definition)) :
    ∀ (m : ModelInst) (errs : List Err) (st : CState),
      (runHasManyWith initF data rels m errs st).2.1 = m := by
  induction rels with
  | nil => intro m errs st; rfl
  | cons p rest ih =>
    intro m errs st
    obtain ⟨name, rel⟩ := p
    unfold runHasManyWith
    by_cases h : hasOwnKey name data
    · rw [if_pos h]
      dsimp only
      rcases hs : initChildrenWith initF rel m name
          (match rawGet data name with | .arrV _ es => es | _ => []) errs st
        with ⟨oe, errs2, st2⟩
      cases oe with
      | some e => rfl
      | none => exact ih m errs2 st2
    · rw [if_neg h]; exact ih m errs st

theorem runHasOneWith_tag
    (initF : Definition → Value → Option (List Err) → CState → InitOut)
    (data : List (String × Value)) (rels : List (String × Definition)) :
    ∀ (m : ModelInst) (errs : List Err) (st : CState),
      ((runHasOneWith initF data rels m errs st).2.1).tag = m.tag := by
  induction rels with
  | nil => intro m errs st; rfl
  | cons p rest ih =>
    intro m errs st
    obtain ⟨name, rel⟩ := p
    unfold runHasOneWith
    by_cases h : hasOwnKey name data
    · rw [if_pos h]
      dsimp only
      cases (initF rel (rawGet data name) (some errs) st).err? with
      | some e => rfl
      | none =>
        dsimp only
        cases hr : (assignHasOneWith initF m name rel
            (instVal (initF rel (rawGet data name) (some errs) st).m)
            (initF rel (rawGet data name) (some errs) st).st).err? with
        | some e => dsimp only; rw [assignHasOneWith_tag]
        | none => dsimp only; rw [ih _ _ _, assignHasOneWith_tag]
    · rw [if_neg h]; exact ih m errs st

theorem populateBody_tag
    (initF : Definition → Value → Option (List Err) → CState → InitOut)
    (d : Definition) (fields : List (String × Value)) (errs0 : List Err)
    (te : Bool) (m3 : ModelInst) (st4 : CState) :
    (populateBody initF d fields errs0 te m3 st4).m.tag = m3.tag := by
  unfold populateBody
  rcases h4 : updateProps m3 fields errs0 st4 with ⟨oe, m4, errs1, st5⟩
  have e4 := congrArg (fun q => q.2.1) h4
  dsimp at e4
  have hm4 : m4.tag = m3.tag := by rw [← e4, updateProps_tag]
  cases oe with
  | some e => exact hm4
  | none =>
    dsimp only
    rcases h5 : runHasManyWith initF fields d.hasMany m4 errs1 st5
      with ⟨oe2, m5, errs2, st6⟩
    have e5 := congrArg (fun q => q.2.1) h5
    dsimp at e5
    have hm5 : m5.tag = m3.tag := by rw [← e5, runHasManyWith_m, hm4]
    cases oe2 with
    | some e => exact hm5
    | none =>
      dsimp only
      rcases h6 : runHasOneWith initF fields d.hasOne m5 errs2 st6
        with ⟨oe3, m6, errs3, st7⟩
      have e6 := congrArg (fun q => q.2.1) h6
      dsimp at e6
      have hm6 : m6.tag = m3.tag := by rw [← e6, runHasOneWith_tag, hm5]
      cases oe3 with
      | some e => exact hm6
      | none =>
        dsimp only
        split
        · exact hm6
        · exact hm6

theorem initBody_tag
    (initF : Definition → Value → Option (List Err) → CState → InitOut)
    (d : Definition) (data0 : Value) (eIn : Option (List Err))
    (st0 : CState) : (initBody initF d data0 eIn st0).m.tag = d.tag := by
  unfold initBody
  dsimp only
  rw [populateBody_tag, installHasOne_tag, installHasMany_tag,
    installProps_tag]

/-- A constructed instance always carries its definition's prototype tag,
so it satisfies `typeOf` against that definition. -/
theorem initModel_tag (fuel : Nat) (d : Definition) (data : Value)
    (e : Option (List Err)) (st : CState) :
    (initModel fuel d data e st).m.tag = d.tag := by
  cases fuel with
  | zero => rfl
  | succ f => rw [initModel_succ]; exact initBody_tag ..

/-! ### Has-one assignment -/

theorem rawGet_cons_self (name : String) (v : Value)
    (fs : List (String × Value)) :
    rawGet ((name, v) :: fs) name = v := by
  simp [rawGet, lookupDict]

/-- A write that did not throw stored its value as the newest frame. -/
theorem setProp_ok_read (m : ModelInst) (name : String) (decl : PropDecl)
    (w : Value) (st : CState)
    (hok : (setProp m name decl w st).err? = none) :
    readData (setProp m name decl w st).m name = w := by
  unfold setProp at hok ⊢
  cases hd : decl.type with
  | none =>
    rw [hd] at hok
    dsimp only
    rw [setStore_m]
    exact rawGet_cons_self ..
  | some t =>
    rw [hd] at hok
    dsimp only at hok ⊢
    by_cases h : tyCheck t w
    · rw [if_pos h, setStore_m]; exact rawGet_cons_self ..
    · rw [if_neg h] at hok; cases hok

/-- C9: a successful assignment through a has-one relationship accessor
stores the incoming value unchanged when it is already an instance of the
declared child definition, and otherwise stores the instance produced by
running the raw value through the child definition's constructor; in both
cases the stored value satisfies the child definition's type. -/
theorem hasone_assignment_instantiates (fuel : Nat) (m : ModelInst)
    (name : String) (rel : Definition) (v : Value) (st : CState)
    (hok : (assignHasOneWith (initModel fuel) m name rel v st).err? = none) :
    readData (assignHasOneWith (initModel fuel) m name rel v st).m name =
      (if tyCheck (.modelTy rel) v then v
       else instVal (initModel fuel rel v none st).m) ∧
    tyCheck (.modelTy rel)
      (readData (assignHasOneWith (initModel fuel) m name rel v st).m name) =
      true := by
  by_cases h : tyCheck (.modelTy rel) v
  · have hstep : assignHasOneWith (initModel fuel) m name rel v st =
        setProp m name (hasOneDecl rel) v st := by
      unfold assignHasOneWith; rw [if_pos h]
    rw [hstep] at hok ⊢
    have hr := setProp_ok_read m name (hasOneDecl rel) v st hok
    rw [hr, if_pos h]
    exact ⟨rfl, h⟩
  · have hstep : assignHasOneWith (initModel fuel) m name rel v st =
        (match (initModel fuel rel v none st).err? with
         | some e => { err? := some e, m := m, levs := [],
                       st := (initModel fuel rel v none st).st }
         | none => setProp m name (hasOneDecl rel)
                     (instVal (initModel fuel rel v none st).m)
                     (initModel fuel rel v none st).st) := by
      unfold assignHasOneWith; rw [if_neg h]
    cases ho : (initModel fuel rel v none st).err? with
    | some e =>
      rw [hstep, ho] at hok
      simp at hok
    | none =>
      rw [hstep, ho] at hok ⊢
      dsimp only at hok ⊢
      have hty : tyCheck (.modelTy rel)
          (instVal (initModel fuel rel v none st).m) = true := by
        show ((initModel fuel rel v none st).m.tag == rel.tag) = true
        rw [initModel_tag]
        simp
      have hr := setProp_ok_read m name (hasOneDecl rel) _ _ hok
      rw [hr, if_neg h]
      exact ⟨rfl, hty⟩

/-- C9 witness: assigning the raw record `{name: "si-after"}` through a
has-one accessor for the child model instantiates it and stores a value
satisfying the child type. -/
theorem hasone_assignment_instantiates_witness :
    readData (assignHasOneWith (initModel 1) mInst0 "afterInit" ChildModel
        vraw st0).m "afterInit" =
      (if tyCheck (.modelTy ChildModel) vraw then vraw
       else instVal (initModel 1 ChildModel vraw none st0).m) ∧
    tyCheck (.modelTy ChildModel)
      (readData (assignHasOneWith (initModel 1) mInst0 "afterInit" ChildModel
          vraw st0).m "afterInit") = true :=
  hasone_assignment_instantiates 1 mInst0 "afterInit" ChildModel vraw st0 rfl

/-! ### Registry behaviour of a failing construction (C5) and per-instance
defaults (C8), on concrete schemas mirroring the repository's tests -/

/-- C5 counterexample: the construction throws (its aggregate carries the
child's violation), yet the registry log after the failed call is not
empty — it contains the registration of the nested child instance, so a
failing construction does leave an instance involved in the call
registered. -/
theorem failed_construction_child_registered_cex :
    ((initModel 2 P5 d5 none st0).err?).isSome = true ∧
    (initModel 2 P5 d5 none st0).st.gevents =
      [.registryAdd 2 (.str "uuid-1")] :=
  ⟨rfl, rfl⟩

/-- C5 (amended): on a failing construction the parent under construction
is indeed never registered — the throw happens before the parent's
`registry:add` — but a nested child constructed during the call receives
the shared error sink, never throws on its own, and therefore registers
itself unconditionally (and is even added to the parent's collection); its
violation still surfaces in the parent's single aggregate.  Here the only
registration event of the failed call is the invalid child's (tag 2), the
parent (tag 1) is absent from the log, and the child sits in the
collection heap. -/
theorem failed_construction_parent_unregistered :
    (initModel 2 P5 d5 none st0).err? =
      some (.aggregate [.typeViolation .stringTy (.num 10)]) ∧
    (initModel 2 P5 d5 none st0).st.gevents =
      [.registryAdd 2 (.str "uuid-1")] ∧
    (initModel 2 P5 d5 none st0).st.colls =
      [(100, [.inst 2 "uuid-1"])] :=
  ⟨rfl, rfl, rfl⟩

/-- C8 counterexample: `initHasMany` runs before `updateProperties` in
src/Base.js's `__init__`, so the collection id is built from the not yet
populated `model.id`: constructing with the explicit id `"p1"` yields a
collection keyed `"undefined-kids"`, not `"p1-kids"` — the claim's
"keyed by the owning instance's id" is false on this code. -/
theorem hasmany_collection_key_cex :
    readData out81.m "kids" = .collV 101 "undefined-kids" ∧
    "undefined-kids" ≠ "p1" ++ "-" ++ "kids" :=
  ⟨rfl, by decide⟩

/-- C8 (amended): two instances constructed from the same definition get
distinct collection objects for a has-many relation (each
`Collection.init` call allocates a fresh collection) and distinct fresh
empty arrays for an array-sentinel default — defaulted collection values
are never shared across instances — but the collection id is the string
`"undefined-" + name` for every instance, because the has-many accessors
are initialised before `updateProperties` has populated `id`. -/
theorem default_collections_distinct_per_instance :
    readData out81.m "kids" = .collV 101 "undefined-kids" ∧
    readData out82.m "kids" = .collV 103 "undefined-kids" ∧
    (101 : Nat) ≠ 103 ∧
    readData out81.m "arrayTest" = .arrV 100 [] ∧
    readData out82.m "arrayTest" = .arrV 102 [] ∧
    (100 : Nat) ≠ 102 :=
  ⟨rfl, rfl, by decide, rfl, rfl, by decide⟩

/-! ### Aggregation of construction-time violations (C1) -/

theorem assignPlain_err (m : ModelInst) (name : String) (decl : PropDecl)
    (v : Value) (st : CState) :
    (assignPlain m name decl v st).err? =
      (match decl.type with
       | some t => if tyCheck t (applySet decl.setter v) then none
                   else some (.typeViolation t (applySet decl.setter v))
       | none => none) := by
  unfold assignPlain setProp
  cases decl.type with
  | none => rw [setStore_err]
  | some t =>
    dsimp only
    by_cases h : tyCheck t (applySet decl.setter v)
    · rw [if_pos h, if_pos h, setStore_err]
    · rw [if_neg h, if_neg h]

theorem assignPlain_props (m : ModelInst) (name : String) (decl : PropDecl)
    (v : Value) (st : CState) :
    (assignPlain m name decl v st).m.props = m.props := setProp_props ..

theorem upLoop_sink (data : List (String × Value))
    (accs : List (String × Accessor)) :
    ∀ (m : ModelInst) (errs : List Err) (st : CState),
      (upLoop data accs m errs st).2.1 = errs ++ violList data accs := by
  induction accs with
  | nil => intro m errs st; simp [upLoop, violList]
  | cons p rest ih =>
    intro m errs st
    obtain ⟨name, acc⟩ := p
    cases acc with
    | hasOneAcc rel =>
      unfold upLoop violList
      rw [ih m errs st]
    | plain decl e =>
      cases e with
      | false =>
        unfold upLoop violList
        rw [ih m errs st]
      | true =>
        unfold upLoop violList
        by_cases h : hasOwnKey name data
        · rw [if_pos h, if_pos h]
          dsimp only
          have hErr := assignPlain_err m name decl (rawGet data name) st
          cases hd : decl.type with
          | none =>
            rw [hd] at hErr
            dsimp only at hErr
            rw [hErr]
            dsimp only
            rw [ih _ _ _]
            simp
          | some t =>
            rw [hd] at hErr
            dsimp only at hErr
            by_cases hc : tyCheck t (applySet decl.setter (rawGet data name))
            · rw [if_pos hc] at hErr
              rw [hErr]
              dsimp only
              rw [ih _ _ _, if_pos hc]
              simp
            · rw [if_neg hc] at hErr
              rw [hErr]
              dsimp only
              rw [ih _ _ _, if_neg hc]
              simp
        · rw [if_neg h, if_neg h]
          rw [ih m errs st]
          simp

theorem violList_map (data : List (String × Value))
    (ps : List (String × PropDecl)) :
    violList data (ps.map (fun p => (p.1, .plain p.2 (enumOf p.2)))) =
      specViols data ps := by
  induction ps with
  | nil => rfl
  | cons p rest ih =>
    obtain ⟨name, decl⟩ := p
    dsimp only [List.map]
    cases he : enumOf decl with
    | true =>
      unfold violList specViols
      simp [he, ih]
    | false =>
      unfold violList specViols
      simp [he, ih]

theorem lookupDict_cons_ne {α : Type} (k k' : String) (v : α)
    (fs : List (String × α)) (h : k' ≠ k) :
    lookupDict ((k', v) :: fs) k = lookupDict fs k := by
  simp [lookupDict, h]

theorem specViols_cons_id (data : List (String × Value)) (w : Value)
    (ps : List (String × PropDecl)) (h : ∀ p ∈ ps, p.1 ≠ "id") :
    specViols (("id", w) :: data) ps = specViols data ps := by
  induction ps with
  | nil => rfl
  | cons p rest ih =>
    obtain ⟨name, decl⟩ := p
    have hn : name ≠ "id" := h ⟨name, decl⟩ (by simp)
    have h1 : hasOwnKey name (("id", w) :: data) = hasOwnKey name data := by
      unfold hasOwnKey
      rw [lookupDict_cons_ne _ _ _ _ (Ne.symm hn)]
    have h2 : rawGet (("id", w) :: data) name = rawGet data name := by
      unfold rawGet
      rw [lookupDict_cons_ne _ _ _ _ (Ne.symm hn)]
    unfold specViols
    rw [h1, h2, ih (fun q hq => h q (List.mem_cons_of_mem _ hq))]

theorem lookupDict_eq_none_of_not_mem {α : Type} (l : List (String × α))
    (k : String) (h : k ∉ l.map Prod.fst) : lookupDict l k = none := by
  induction l with
  | nil => rfl
  | cons kv rest ih =>
    obtain ⟨k', v⟩ := kv
    rw [List.map_cons] at h
    have hk : k' ≠ k := by
      intro he
      apply h
      rw [he]
      exact List.mem_cons_self _ _
    rw [lookupDict_cons_ne _ _ _ _ hk]
    exact ih (fun hm => h (List.mem_cons_of_mem _ hm))

theorem seedDefault_props (m : ModelInst) (name : String) (decl : PropDecl)
    (st : CState) : ((seedDefault m name decl st).1).props = m.props := by
  unfold seedDefault
  cases decl.defaultValue with
  | none => rfl
  | some dv => dsimp only; cases dv <;> rfl

theorem installProps_props (ps : List (String × PropDecl)) :
    ∀ (m : ModelInst) (st : CState),
      (∀ p ∈ ps, p.1 ∉ m.props.map Prod.fst) →
      List.Nodup (ps.map Prod.fst) →
      ((installProps ps m st).1).props =
        m.props ++ ps.map (fun p => (p.1, .plain p.2 (enumOf p.2))) := by
  induction ps with
  | nil => intro m st _ _; simp [installProps]
  | cons p rest ih =>
    intro m st hfresh hnd
    obtain ⟨name, decl⟩ := p
    rw [List.map_cons] at hnd
    obtain ⟨hhead, htail⟩ := List.nodup_cons.mp hnd
    unfold installProps
    have hno : findAccessor m name = none :=
      lookupDict_eq_none_of_not_mem _ _ (hfresh ⟨name, decl⟩ (by simp))
    have hnos : (findAccessor m name).isSome = false := by rw [hno]; rfl
    rw [hnos, if_neg Bool.false_ne_true]
    dsimp only
    rcases hs : seedDefault
        { m with props := m.props ++ [(name, .plain decl (enumOf decl))] }
        name decl st with ⟨m2, st2⟩
    dsimp only
    have hps : m2.props = m.props ++ [(name, .plain decl (enumOf decl))] := by
      have h1 := congrArg Prod.fst hs
      dsimp at h1
      rw [← h1, seedDefault_props]
    have hfresh2 : ∀ q ∈ rest, q.1 ∉ m2.props.map Prod.fst := by
      intro q hq
      rw [hps]
      intro hmem
      rw [List.map_append] at hmem
      rcases List.mem_append.mp hmem with hm1 | hm2
      · exact hfresh q (List.mem_cons_of_mem _ hq) hm1
      · have hqn : q.1 = name := by simpa using hm2
        have hmm : q.1 ∈ rest.map Prod.fst := List.mem_map_of_mem Prod.fst hq
        rw [hqn] at hmm
        exact hhead hmm
    rw [ih m2 st2 hfresh2 htail, hps]
    simp


theorem violList_cons_skipF (data : List (String × Value)) (name : String)
    (decl : PropDecl) (rest : List (String × Accessor)) :
    violList data ((name, .plain decl false) :: rest) = violList data rest := rfl

theorem updateProps_ok (m : ModelInst) (data : List (String × Value))
    (errs : List Err) (st : CState) (decl : PropDecl) (e : Bool)
    (hacc : findAccessor m "id" = some (.plain decl e))
    (hok : (assignPlain m "id" decl (rawGet data "id") st).err? = none) :
    (updateProps m data errs st).1 = none ∧
    (updateProps m data errs st).2.2.1 = errs ++ violList data m.props := by
  unfold updateProps
  rw [hacc]
  dsimp only
  rw [hok]
  dsimp only
  constructor
  · rfl
  · rw [upLoop_sink, assignPlain_props]


/-- C1 counterexample: the original claim fails when one of the invalid
supplied values is the id itself.  `updateProperties` assigns
`model.id = data.id` (src/Base.js:241) outside the try/catch, so
constructing with `{id: 7, stringTest: 10, numberTest: "x"}` — three
invalid property values — throws the bare id `TypeViolation` alone, not an
aggregate, and the other two violations are dropped. -/
theorem construction_bare_id_violation_cex :
    (initModel 1 (.mk 1 (("id", idDecl) :: psC1) [] [])
        (.obj (("id", .num 7) :: dataC1)) none st0).err? =
      some (.typeViolation .stringTy (.num 7)) := rfl

/-- C1 (amended): constructing from raw data that contains two or more
invalid property values — each present field whose (transformed) value
fails its declared type — fails exactly once, with a single aggregate
error whose contents are exactly the full list of individual violations in
declaration order (no short-circuit at the first bad field and no
per-field throw escapes), provided the id assignment itself succeeds:
stated here for raw data that supplies no id, so a freshly generated
string id is assigned.  The proviso is forced by the counterexample above:
`model.id = data.id` runs outside the try in `updateProperties`, so an
invalid supplied id escapes as a single bare `TypeViolation` and every
other violation is dropped.  Stated for a definition consisting of the
built-in `id` declaration followed by arbitrary property declarations
with distinct names. -/
theorem construction_aggregates_all_violations (fuel tag : Nat)
    (ps : List (String × PropDecl)) (data : List (String × Value))
    (st : CState)
    (hnd : List.Nodup ("id" :: ps.map Prod.fst))
    (hid : rawGet data "id" = .undefV)
    (hmany : 2 ≤ (specViols data ps).length) :
    (initModel (fuel + 1) (.mk tag (("id", idDecl) :: ps) [] [])
        (.obj data) none st).err? =
      some (.aggregate (specViols data ps)) := by
  obtain ⟨hida, hndps⟩ := List.nodup_cons.mp hnd
  rw [initModel_succ]
  unfold initBody
  dsimp only [rawFields]
  rw [hid]
  dsimp only [installHasMany, installHasOne, Definition.properties,
    Definition.hasMany, Definition.hasOne, Definition.tag, Option.getD,
    Option.isNone]
  set st1 : CState :=
    { alloc := st.alloc, nextId := st.nextId + 1, colls := st.colls,
      gevents := st.gevents } with hst1
  set m0 : ModelInst :=
    { tag := tag, dataFrames := [], props := [], dropsync := false } with hm0
  set fields : List (String × Value) :=
    ("id", Value.str (genId st.nextId)) :: data with hfieldsdef
  have hen : enumOf idDecl = false := rfl
  have hprops : ((installProps (("id", idDecl) :: ps) m0 st1).1).props =
      ("id", Accessor.plain idDecl false) ::
        ps.map (fun p => (p.1, .plain p.2 (enumOf p.2))) := by
    rw [installProps_props (("id", idDecl) :: ps) m0 st1
      (by intro p hp; simp [hm0])
      (by simpa using hnd)]
    simp [hm0, hen]
  have hacc : findAccessor (installProps (("id", idDecl) :: ps) m0 st1).1 "id" =
      some (.plain idDecl false) := by
    unfold findAccessor
    rw [hprops]
    simp [lookupDict]
  have hok : ∀ (mm : ModelInst) (stt : CState),
      (assignPlain mm "id" idDecl (rawGet fields "id") stt).err? = none := by
    intro mm stt
    rw [assignPlain_err, hfieldsdef, rawGet_cons_self]
    rfl
  have hpsid : ∀ p ∈ ps, p.1 ≠ "id" := by
    intro p hp he
    exact hida (by rw [← he]; exact List.mem_map_of_mem Prod.fst hp)
  unfold populateBody
  rcases hup : updateProps (installProps (("id", idDecl) :: ps) m0 st1).1 fields
      [] (installProps (("id", idDecl) :: ps) m0 st1).2
    with ⟨oe, m4, errs1, st5⟩
  have hspec := updateProps_ok (installProps (("id", idDecl) :: ps) m0 st1).1
    fields [] (installProps (("id", idDecl) :: ps) m0 st1).2 idDecl false hacc
    (hok _ _)
  rw [hup] at hspec
  obtain ⟨h1, h2⟩ := hspec
  dsimp at h1 h2
  subst h1
  dsimp only
  have hv : errs1 = specViols data ps := by
    rw [h2, hprops, violList_cons_skipF, violList_map, hfieldsdef,
      specViols_cons_id data (Value.str (genId st.nextId)) ps hpsid]
  have hne : errs1.isEmpty = false := by
    rw [hv]
    cases hsv : specViols data ps with
    | nil => rw [hsv] at hmany; simp at hmany
    | cons a l => rfl
  dsimp only [runHasManyWith, runHasOneWith]
  rw [hne, hv]
  rfl

/-- C1 witness: `{stringTest: 10, numberTest: "x"}` against declarations
typed string/number fails once with an aggregate of exactly those two
violations. -/
theorem construction_aggregates_witness :
    (initModel 1 (.mk 1 (("id", idDecl) :: psC1) [] []) (.obj dataC1) none
        st0).err? =
      some (.aggregate (specViols dataC1 psC1)) :=
  construction_aggregates_all_violations 0 1 psC1 dataC1 st0 (by decide) rfl
    (by decide)

end BaseModel
